import Mathlib

/-!
Verification of the `arxivql` library: a shallow embedding of its two core
modules and proofs of the specified properties.

* `_utils.py` — `ArticleId`: parsing and reconstruction of arXiv identifiers
  (modern `YYMM.NNNN[N]` and legacy `archive[.subject]/YYMMNNN` formats).
* `_query.py` — `Query`: an immutable boolean query-expression builder with
  field constructors, AND/OR/ANDNOT combinators and deferred negation checks.

Strings are modelled as `List Char`.  Python `int(...)` on digit strings is
`digitsToNat`, Python `f"{n:0wd}"` zero-padded rendering is `padZeros w n`.
Character classes from the source's regexes are modelled over ASCII code
points (`re` Unicode word characters beyond ASCII are out of scope for every
identifier the library documents).
-/

/-- The characters Python's `str.strip()` and `str.split()` treat as
whitespace (`str.isspace()`): `\x09`-`\x0d`, `\x1c`-`\x1f`, space, next
line `\x85`, no-break space `\xa0`, and the Unicode space separators. -/
def isPySpace (c : Char) : Bool :=
  (9 ≤ c.toNat && c.toNat ≤ 13) || (28 ≤ c.toNat && c.toNat ≤ 31) ||
  c.toNat = 32 || c.toNat = 0x85 || c.toNat = 0xa0 || c.toNat = 0x1680 ||
  (0x2000 ≤ c.toNat && c.toNat ≤ 0x200a) || c.toNat = 0x2028 ||
  c.toNat = 0x2029 || c.toNat = 0x202f || c.toNat = 0x205f || c.toNat = 0x3000

/-- Python `str.lstrip()`. -/
def lstrip (s : List Char) : List Char := s.dropWhile isPySpace

/-- Python `str.rstrip()`. -/
def rstrip (s : List Char) : List Char := (lstrip s.reverse).reverse

/-- Python `str.strip()`. -/
def pyStrip (s : List Char) : List Char := rstrip (lstrip s)

/-- Shorthand: the character list of a string literal. -/
def lit (s : String) : List Char := s.data

/-- The regex class `[0-9]`. -/
def isDigitCh (c : Char) : Bool := 48 ≤ c.toNat && c.toNat ≤ 57

/-- Numeric value of a decimal digit character. -/
def digitVal (c : Char) : Nat := c.toNat - 48

/-- The decimal digit character for a value `n < 10`. -/
def digitCh (n : Nat) : Char := Char.ofNat (48 + n)

/-- Python `int(...)` on a string of decimal digits. -/
def digitsToNat : List Char → Nat
  | [] => 0
  | c :: cs => digitVal c * 10 ^ cs.length + digitsToNat cs

/-- Fuel-driven decimal rendering loop (most significant digit first). -/
def natToDigitsAux : Nat → Nat → List Char → List Char
  | 0, n, acc => digitCh n :: acc
  | fuel + 1, n, acc =>
    if n < 10 then digitCh n :: acc
    else natToDigitsAux fuel (n / 10) (digitCh (n % 10) :: acc)

/-- Decimal rendering of a natural number, e.g. `natToDigits 407 = "407"`. -/
def natToDigits (n : Nat) : List Char := natToDigitsAux n n []

/-- Python `f"{n:0wd}"`: decimal rendering left-padded with zeros to width `w`. -/
def padZeros (w : Nat) (n : Nat) : List Char :=
  List.replicate (w - (natToDigits n).length) '0' ++ natToDigits n

/-- Python `s.split(sep, 1)` when `sep` occurs: the parts before and after the
first occurrence of `c`; `none` when `c` does not occur. -/
def splitFirst (c : Char) : List Char → Option (List Char × List Char)
  | [] => none
  | x :: xs =>
    if x = c then some ([], xs)
    else (splitFirst c xs).map fun p => (x :: p.1, p.2)

/-- Worker for Python `str.split()` (split on whitespace runs, no empties). -/
def pyWordsAux : List Char → List Char → List (List Char)
  | [], cur => if cur.isEmpty then [] else [cur.reverse]
  | c :: cs, cur =>
    if isPySpace c then
      if cur.isEmpty then pyWordsAux cs [] else cur.reverse :: pyWordsAux cs []
    else pyWordsAux cs (c :: cur)

/-- Python `str.split()` with no arguments. -/
def pyWords (s : List Char) : List (List Char) := pyWordsAux s []

/-!
Verification of the `arxivql` library: a shallow embedding of its two core
modules and proofs of the specified properties.

* `_utils.py` — `ArticleId`: parsing and reconstruction of arXiv identifiers
  (modern `YYMM.NNNN[N]` and legacy `archive[.subject]/YYMMNNN` formats).
* `_query.py` — `Query`: an immutable boolean query-expression builder with
  field constructors, AND/OR/ANDNOT combinators and deferred negation checks.

Strings are modelled as `List Char`.  Python `int(...)` on digit strings is
`digitsToNat`, Python `f"{n:0wd}"` zero-padded rendering is `padZeros w n`.
Character classes from the source's regexes are modelled over ASCII code
points (`re` Unicode word characters beyond ASCII are out of scope for every
identifier the library documents).
-/

/-- The regex class `\w` of `re` restricted to ASCII: letters, digits, `'_'`. -/
def isWordCh (c : Char) : Bool :=
  (65 ≤ c.toNat && c.toNat ≤ 90) || (97 ≤ c.toNat && c.toNat ≤ 122) ||
  isDigitCh c || c = '_'

/-- The regex class `[\w.-]` used for the legacy category group. -/
def isCatCh (c : Char) : Bool := isWordCh c || c = '.' || c = '-'

/-- The parsed-identifier record of `_utils.ArticleId`.  `pfx` is the
source's `prefix` attribute (renamed: `prefix` is reserved in Lean). -/
structure ArticleId where
  base_id : List Char
  version : Option Nat
  year : Nat
  month : Nat
  number : Nat
  pfx : Option (List Char)
  archive : Option (List Char)
  subject : Option (List Char)
deriving DecidableEq

/-- Model of `_parse_post0704_identifier`: fullmatch of `([0-9]{4})\.([0-9]{4,5})` with a
month-range check; returns `(year, month, number)`. -/
def parse_post0704 (identifier : List Char) : Option (Nat × Nat × Nat) :=
  match identifier with
  | a :: b :: c :: d :: dot :: seq =>
    if isDigitCh a && isDigitCh b && isDigitCh c && isDigitCh d && dot = '.'
        && (seq.length = 4 || seq.length = 5) && seq.all isDigitCh then
      let mm := digitsToNat [c, d]
      if 1 ≤ mm ∧ mm ≤ 12 then
        some (2000 + digitsToNat [a, b], mm, digitsToNat seq)
      else none
    else none
  | _ => none

/-- Model of `_parse_pre0704_identifier`: fullmatch of `([\w.-]+)/([0-9]{7})` with a
month-range check and a 1900s/2000s cutover at two-digit year 90; the category
is split on its first `.` into archive and optional subject.  Returns
`(year, month, number, archive, subject)`. -/
def parse_pre0704 (identifier : List Char) :
    Option (Nat × Nat × Nat × List Char × Option (List Char)) :=
  match splitFirst '/' identifier with
  | none => none
  | some (category, numeric) =>
    match numeric with
    | [y1, y2, m1, m2, n1, n2, n3] =>
      if category ≠ [] ∧ category.all isCatCh = true ∧
          [y1, y2, m1, m2, n1, n2, n3].all isDigitCh = true then
        let yy := digitsToNat [y1, y2]
        let mm := digitsToNat [m1, m2]
        if 1 ≤ mm ∧ mm ≤ 12 then
          let year := if 90 ≤ yy then 1900 + yy else 2000 + yy
          match splitFirst '.' category with
          | some (archIn, subj) => some (year, mm, digitsToNat [n1, n2, n3], archIn, some subj)
          | none => some (year, mm, digitsToNat [n1, n2, n3], category, none)
        else none
      else none
    | _ => none

/-- Version-suffix search: the source's lazy regex `^(?P<id>.+?)(v[0-9]+)?$`
takes the SHORTEST leading base id, i.e. it splits at the first position whose
suffix is `v` followed by one or more digits.  `pre` is the reversed prefix
scanned so far.  Returns `(base_id, version digits?)`. -/
def vsplitAux : List Char → List Char → List Char × Option (List Char)
  | pre, [] => (pre.reverse, none)
  | pre, c :: cs =>
    if c = 'v' && !cs.isEmpty && cs.all isDigitCh then (pre.reverse, some cs)
    else vsplitAux (c :: pre) cs

/-- Split an identifier body into base id and optional version digits; the base
id group `.+?` must be nonempty, so scanning starts after the first character. -/
def vsplitTop : List Char → List Char × Option (List Char)
  | [] => ([], none)
  | c :: cs => vsplitAux [c] cs

/-- The body of `ArticleId.from_id` after prefix handling: version split, then
dispatch on `"/" in base_id` to the legacy or modern parser.  The guard models
the regex `.+?` failing on an empty body or one containing a newline (`.` does
not match `\n`). -/
def fromBody (s : List Char) : Option ArticleId :=
  if s = [] ∨ '\n' ∈ s then none
  else
    let split := vsplitTop s
    let base_id := split.1
    let version := split.2.map digitsToNat
    if '/' ∈ base_id then
      (parse_pre0704 base_id).map fun (y, m, n, archIn, subj) =>
        ⟨base_id, version, y, m, n, none, some archIn, subj⟩
    else
      (parse_post0704 base_id).map fun (y, m, n) =>
        ⟨base_id, version, y, m, n, none, none, none⟩

/-- Model of `ArticleId.from_id`: strip surrounding whitespace, split an optional
`prefix:` on the first colon (stripping the remainder), then parse the body. -/
def ArticleId.from_id (article_id : List Char) : Option ArticleId :=
  let s := pyStrip article_id
  match splitFirst ':' s with
  | some (p, rest) => (fromBody (pyStrip rest)).map fun a => { a with pfx := some p }
  | none => fromBody s

/-- Model of `ArticleId._reconstruct_post0704_base_id`: renders two-digit year
and month, a dot, then the sequence number zero-padded to 4 digits before 2015
and 5 afterwards. -/
def ArticleId.reconstruct_post0704_base_id (a : ArticleId) : List Char :=
  padZeros 2 (a.year % 100) ++ padZeros 2 a.month ++
    '.' :: padZeros (if a.year < 2015 then 4 else 5) a.number

/-- Model of `ArticleId._reconstruct_pre0704_base_id`: `archive[.subject]/YYMMNNN` with
a 3-digit zero-padded sequence number.  (Only ever called with `archive`
present; `[]` stands in for the impossible missing case.) -/
def ArticleId.reconstruct_pre0704_base_id (a : ArticleId) : List Char :=
  let category := match a.subject with
    | some subj => a.archive.getD [] ++ '.' :: subj
    | none => a.archive.getD []
  category ++ '/' :: (padZeros 2 (a.year % 100) ++ padZeros 2 a.month ++ padZeros 3 a.number)

/-- Model of `ArticleId._reconstruct_id`: base id by format, then `prefix:` in front and
`vN` behind when present. -/
def ArticleId.reconstruct_id (a : ArticleId) : List Char :=
  let base_id := match a.archive with
    | none => a.reconstruct_post0704_base_id
    | some _ => a.reconstruct_pre0704_base_id
  (match a.pfx with | some p => p ++ [':'] | none => []) ++
    base_id ++
    (match a.version with | some v => 'v' :: natToDigits v | none => [])

/-- The textual version suffix a split result stands for. -/
def vtail : Option (List Char) → List Char
  | some ds => 'v' :: ds
  | none => []

/-! ### Canonical identifier strings

The round-trip law `reconstruct (parse s) = s` does not hold for every
accepted string `s` (the parser tolerates surrounding whitespace, whitespace
after the prefix colon, version numbers with leading zeros, and modern
sequence numbers whose written width disagrees with the year's era).  The
following decidable predicate carves out the canonical strings, on which the
round-trip law is proved below. -/

/-- Version digits reconstruct verbatim iff they carry no leading zero
(a single `0` digit is allowed). -/
def canonVersion : Option (List Char) → Bool
  | none => true
  | some ds => ds.length == 1 || ds.headD ' ' != '0'

/-- A modern base id's sequence digits must be written 4 wide before 2015 and
5 wide from 2015 on (a 5-wide pre-2015 sequence is also fine when it has no
leading zero). -/
def canonModernSeq (base : List Char) : Bool :=
  match base with
  | a :: b :: _ :: _ :: '.' :: seq =>
    if digitsToNat [a, b] < 15 then
      seq.length == 4 || (seq.length == 5 && seq.headD ' ' != '0')
    else seq.length == 5
  | _ => true

/-- Canonical identifier body (after the optional prefix colon). -/
def canonBody (body : List Char) : Bool :=
  let split := vsplitTop body
  canonVersion split.2 && (decide ('/' ∈ split.1) || canonModernSeq split.1)

/-- Canonical identifier string: no surrounding whitespace, no whitespace
after the prefix colon, and a canonical body. -/
def canonicalId (s : List Char) : Bool :=
  (pyStrip s == s) &&
  match splitFirst ':' s with
  | some p => (pyStrip p.2 == p.2) && canonBody p.2
  | none => canonBody s

/-- The category text a parsed archive/subject pair stands for. -/
def categoryOf (archIn : List Char) : Option (List Char) → List Char
  | some sj => archIn ++ '.' :: sj
  | none => archIn

/-!
Verification of the `arxivql` library: a shallow embedding of its two core
modules and proofs of the specified properties.

* `_utils.py` — `ArticleId`: parsing and reconstruction of arXiv identifiers
  (modern `YYMM.NNNN[N]` and legacy `archive[.subject]/YYMMNNN` formats).
* `_query.py` — `Query`: an immutable boolean query-expression builder with
  field constructors, AND/OR/ANDNOT combinators and deferred negation checks.

Strings are modelled as `List Char`.  Python `int(...)` on digit strings is
`digitsToNat`, Python `f"{n:0wd}"` zero-padded rendering is `padZeros w n`.
Character classes from the source's regexes are modelled over ASCII code
points (`re` Unicode word characters beyond ASCII are out of scope for every
identifier the library documents).
-/

/-- Error kinds raised by `_query.py` (all `ValueError` in the source,
distinguished by message). -/
inductive QueryError
  | forbiddenCharacter
  | unquotableMultiTerm
  | standaloneNegation
  | unsupportedOperator
  | invalidDateString
deriving DecidableEq

/-- The `Query` value: serialized `content` plus the deferred `negated` flag. -/
structure Query where
  content : List Char
  negated : Bool
deriving DecidableEq

/-- Model of `Query._validate_negation`: fails on a negated expression. -/
def Query.validate_negation (q : Query) : Except QueryError Unit :=
  if q.negated then .error .standaloneNegation else .ok ()

/-- Model of `Query.to_string` (and `__str__`): validate negation, then return
the content. -/
def Query.to_string (q : Query) : Except QueryError (List Char) :=
  match q.validate_negation with
  | .error e => .error e
  | .ok _ => .ok q.content

/-- Model of `Query.from_raw_string`: wrap the raw text in parentheses. -/
def Query.from_raw_string (raw : List Char) : Query :=
  ⟨'(' :: raw ++ [')'], false⟩

/-- An operand of the overloaded combinators: a raw string or a `Query`. -/
inductive StrOrQuery
  | str (s : List Char)
  | qry (q : Query)

/-- Model of `Query.__and__`: validate own negation, promote a raw string via
`from_raw_string`, pick `ANDNOT` when the right operand is negated. -/
def Query.andOp (self : Query) (other : StrOrQuery) : Except QueryError Query :=
  match self.validate_negation with
  | .error e => .error e
  | .ok _ =>
    let o := match other with
      | .str s => Query.from_raw_string s
      | .qry q => q
    let op := if o.negated then lit "ANDNOT" else lit "AND"
    .ok ⟨'(' :: self.content ++ ' ' :: op ++ ' ' :: o.content ++ [')'], false⟩

/-- Model of `Query.__or__`: validate own negation, promote a raw string, fail
on a negated right operand (no ORNOT operator). -/
def Query.orOp (self : Query) (other : StrOrQuery) : Except QueryError Query :=
  match self.validate_negation with
  | .error e => .error e
  | .ok _ =>
    let o := match other with
      | .str s => Query.from_raw_string s
      | .qry q => q
    if o.negated then .error .unsupportedOperator
    else .ok ⟨'(' :: self.content ++ ' ' :: lit "OR" ++ ' ' :: o.content ++ [')'], false⟩

/-- Model of `Query.__rand__`: promote the left string, delegate to `__and__`. -/
def Query.randOp (self : Query) (other : List Char) : Except QueryError Query :=
  (Query.from_raw_string other).andOp (.qry self)

/-- Model of `Query.__ror__`: promote the left string, delegate to `__or__`. -/
def Query.rorOp (self : Query) (other : List Char) : Except QueryError Query :=
  (Query.from_raw_string other).orOp (.qry self)

/-- Model of `Query.__invert__`: toggle the negation flag. -/
def Query.invert (q : Query) : Query := ⟨q.content, !q.negated⟩

/-- Search for the regex class `[")(]` of `Query._validate_term`. -/
def hasForbiddenChar (s : List Char) : Bool :=
  s.any fun c => c = '"' || c = ')' || c = '('

/-- Model of `Query._validate_term`: forbid quotes and parentheses, then quote
a multi-token value or reject it when quoting is off. -/
def Query.validate_term (term : List Char) (quote : Bool) :
    Except QueryError (List Char) :=
  if hasForbiddenChar term then .error .forbiddenCharacter
  else if 1 < (pyWords term).length then
    if quote then .ok ('"' :: term ++ ['"']) else .error .unquotableMultiTerm
  else .ok term

/-- Fail-fast effectful map, the model of the source's list comprehension
`[cls._validate_term(term, quote) for term in value]`. -/
def mapExcept (f : α → Except ε β) : List α → Except ε (List β)
  | [] => .ok []
  | a :: as =>
    match f a with
    | .error e => .error e
    | .ok b =>
      match mapExcept f as with
      | .error e => .error e
      | .ok bs => .ok (b :: bs)

/-- A `FieldValue`: a single stringable term, a list of terms (ANY), or a
tuple of terms (ALL). -/
inductive FieldValue
  | scalar (t : List Char)
  | list (ts : List (List Char))
  | tup (ts : List (List Char))

/-- Model of `Query.from_field`: lists render as `pfx:(t1 t2 ...)`, tuples as
`pfx:(t1 AND t2 ...)`, scalars as `pfx:term`. -/
def Query.from_field (value : FieldValue) (pfx : List Char)
    (quote : Bool) : Except QueryError Query :=
  match value with
  | .list ts =>
    match mapExcept (fun t => Query.validate_term t quote) ts with
    | .error e => .error e
    | .ok terms =>
      .ok ⟨pfx ++ ':' :: '(' :: List.intercalate (lit " ") terms ++ [')'], false⟩
  | .tup ts =>
    match mapExcept (fun t => Query.validate_term t quote) ts with
    | .error e => .error e
    | .ok terms =>
      .ok ⟨pfx ++ ':' :: '(' :: List.intercalate (lit " AND ") terms ++ [')'], false⟩
  | .scalar t =>
    match Query.validate_term t quote with
    | .error e => .error e
    | .ok term => .ok ⟨pfx ++ ':' :: term, false⟩

/-- Model of `Query.category` (quoting off: categories are atomic tokens). -/
def Query.category (v : FieldValue) : Except QueryError Query :=
  Query.from_field v (lit "cat") false

/-- Model of `Query.title`. -/
def Query.title (v : FieldValue) : Except QueryError Query :=
  Query.from_field v (lit "ti") true

/-- Model of `Query.author`. -/
def Query.author (v : FieldValue) : Except QueryError Query :=
  Query.from_field v (lit "au") true

/-- Model of `Query.abstract`. -/
def Query.abstract (v : FieldValue) : Except QueryError Query :=
  Query.from_field v (lit "abs") true

/-- Model of `Query.comment`. -/
def Query.comment (v : FieldValue) : Except QueryError Query :=
  Query.from_field v (lit "co") true

/-- Model of `Query.journal`. -/
def Query.journal (v : FieldValue) : Except QueryError Query :=
  Query.from_field v (lit "jr") true

/-- Model of `Query.report`. -/
def Query.report (v : FieldValue) : Except QueryError Query :=
  Query.from_field v (lit "rn") true

/-- Model of `Query.id` (the source also emits a deprecation warning through
the standard warning channel; the warning is a side channel, not a value). -/
def Query.id (v : FieldValue) : Except QueryError Query :=
  Query.from_field v (lit "id") true

/-- Model of `Query.all`. -/
def Query.all (v : FieldValue) : Except QueryError Query :=
  Query.from_field v (lit "all") true

/-! ### `Query.submitted_date` and the digit-string timestamp validator -/

/-- Format components used by `_validate_arxiv_datetime_string` through
`datetime.strptime`.  CPython compiles them to these regexes: `%Y` is exactly
four digits, `%m` is `1[0-2]|0[1-9]|[1-9]`, `%d` is `3[01]|[12]\d|0[1-9]|[1-9]`,
`%H` is `2[0-3]|[0-1]\d|\d`, and `%M`/`%S` are `[0-5]\d|\d`. -/
inductive FmtC
  | Y | m | d | H | M | S

/-- Candidate matches of one component against the digits, in the order the
regex alternation tries them: matched value and remaining input. -/
def compAlts : FmtC → List Char → List (Nat × List Char)
  | .Y, a :: b :: c :: e :: rest => [(digitsToNat [a, b, c, e], rest)]
  | .Y, _ => []
  | .m, s =>
    (match s with
     | a :: b :: rest =>
       if digitVal a = 1 ∧ digitVal b ≤ 2 then [(10 + digitVal b, rest)]
       else if digitVal a = 0 ∧ 1 ≤ digitVal b then [(digitVal b, rest)]
       else []
     | _ => []) ++
    (match s with
     | a :: rest => if 1 ≤ digitVal a then [(digitVal a, rest)] else []
     | _ => [])
  | .d, s =>
    (match s with
     | a :: b :: rest =>
       if digitVal a = 3 ∧ digitVal b ≤ 1 then [(30 + digitVal b, rest)]
       else if 1 ≤ digitVal a ∧ digitVal a ≤ 2 then
         [(10 * digitVal a + digitVal b, rest)]
       else if digitVal a = 0 ∧ 1 ≤ digitVal b then [(digitVal b, rest)]
       else []
     | _ => []) ++
    (match s with
     | a :: rest => if 1 ≤ digitVal a then [(digitVal a, rest)] else []
     | _ => [])
  | .H, s =>
    (match s with
     | a :: b :: rest =>
       if digitVal a = 2 ∧ digitVal b ≤ 3 then [(20 + digitVal b, rest)]
       else if digitVal a ≤ 1 then [(10 * digitVal a + digitVal b, rest)]
       else []
     | _ => []) ++
    (match s with
     | a :: rest => [(digitVal a, rest)]
     | _ => [])
  | .M, s =>
    (match s with
     | a :: b :: rest =>
       if digitVal a ≤ 5 then [(10 * digitVal a + digitVal b, rest)] else []
     | _ => []) ++
    (match s with
     | a :: rest => [(digitVal a, rest)]
     | _ => [])
  | .S, s =>
    (match s with
     | a :: b :: rest =>
       if digitVal a ≤ 5 then [(10 * digitVal a + digitVal b, rest)] else []
     | _ => []) ++
    (match s with
     | a :: rest => [(digitVal a, rest)]
     | _ => [])

/-- Backtracking over the candidate list of one component. -/
def tryAlts (f : List Char → Option (List Nat)) :
    List (Nat × List Char) → Option (List Nat)
  | [] => none
  | (v, rest) :: more =>
    match f rest with
    | some vs => some (v :: vs)
    | none => tryAlts f more

/-- Match a component sequence against the whole digit string, with the
backtracking the compiled regex performs. -/
def matchComps : List FmtC → List Char → Option (List Nat)
  | [], s => if s = [] then some [] else none
  | c :: cs, s => tryAlts (matchComps cs) (compAlts c s)

/-- Gregorian leap-year rule, as in `datetime`. -/
def isLeapYear (y : Nat) : Bool := (y % 4 = 0 && y % 100 ≠ 0) || y % 400 = 0

/-- Length of a month, as validated by the `datetime` constructor. -/
def daysInMonth (y mo : Nat) : Nat :=
  if mo = 2 then (if isLeapYear y then 29 else 28)
  else if mo = 4 ∨ mo = 6 ∨ mo = 9 ∨ mo = 11 then 30
  else 31

/-- The checks `strptime` performs after the regex match: the year is at
least `MINYEAR = 1` and the day exists in the month (missing components
default to month 1, day 1). -/
def strptimeOk (vals : List Nat) : Bool :=
  let y := vals.headD 1900
  let mo := (vals.drop 1).headD 1
  let dd := (vals.drop 2).headD 1
  1 ≤ y && dd ≤ daysInMonth y mo

/-- Model of `_validate_arxiv_datetime_string`: a 4-14 digit string parsed by
the format implied by its length; returns the string unchanged. -/
def validate_arxiv_datetime_string (d : List Char) :
    Except QueryError (List Char) :=
  if ¬ (4 ≤ d.length ∧ d.length ≤ 14 ∧ d.all isDigitCh = true) then
    .error .invalidDateString
  else
    let comps : List FmtC :=
      if d.length ≤ 4 then [.Y]
      else if d.length ≤ 6 then [.Y, .m]
      else if d.length ≤ 8 then [.Y, .m, .d]
      else if d.length ≤ 10 then [.Y, .m, .d, .H]
      else if d.length ≤ 12 then [.Y, .m, .d, .H, .M]
      else [.Y, .m, .d, .H, .M, .S]
    match matchComps comps d with
    | some vals => if strptimeOk vals then .ok d else .error .invalidDateString
    | none => .error .invalidDateString

/-- A bound for `submitted_date`: a naive `datetime` (seconds are dropped by
`strftime("%Y%m%d%H%M")`), a `date`, or a digit-string timestamp.  The
timezone-aware `datetime` branch (conversion to UTC before formatting) is not
modelled; no claim concerns it. -/
inductive DateArg
  | dt (y mo dd hh mi ss : Nat)
  | dateOnly (y mo dd : Nat)
  | ts (s : List Char)

/-- Model of the inner `format_date` of `Query.submitted_date`. -/
def format_date : DateArg → Except QueryError (List Char)
  | .dt y mo dd hh mi _ =>
    .ok (padZeros 4 y ++ padZeros 2 mo ++ padZeros 2 dd ++
      padZeros 2 hh ++ padZeros 2 mi)
  | .dateOnly y mo dd =>
    .ok (padZeros 4 y ++ padZeros 2 mo ++ padZeros 2 dd ++ lit "0000")
  | .ts s => validate_arxiv_datetime_string s

/-- Model of `Query.submitted_date`: open bounds become the sentinels
`100001010000` / `900001010000`; the start bound is formatted (and can fail)
before the end bound. -/
def Query.submitted_date (start stop : Option DateArg) :
    Except QueryError Query :=
  match (match start with
         | some b => format_date b
         | none => Except.ok (lit "100001010000")) with
  | .error e => .error e
  | .ok start_str =>
    match (match stop with
           | some b => format_date b
           | none => Except.ok (lit "900001010000")) with
    | .error e => .error e
    | .ok end_str =>
      .ok ⟨lit "submittedDate:[" ++ start_str ++ lit " TO " ++ end_str ++ [']'],
        false⟩

/-- A term with no forbidden character and no whitespace at all. -/
def cleanTerm (t : List Char) : Bool :=
  !hasForbiddenChar t && t.all fun c => !isPySpace c

/-! ### Arithmetic facts about digit strings -/

theorem digitVal_lt_ten {c : Char} (h : isDigitCh c = true) : digitVal c < 10 := by
  simp only [isDigitCh, Bool.and_eq_true, decide_eq_true_eq] at h
  simp only [digitVal]
  omega

theorem digitsToNat_lt {ds : List Char} (h : ds.all isDigitCh = true) :
    digitsToNat ds < 10 ^ ds.length := by
  induction ds with
  | nil => simp [digitsToNat]
  | cons c cs ih =>
    simp only [List.all_cons, Bool.and_eq_true] at h
    have hc := digitVal_lt_ten h.1
    have hcs := ih h.2
    simp only [digitsToNat, List.length_cons, pow_succ]
    nlinarith

theorem digitsToNat_le {ds : List Char} (h : ds.all isDigitCh = true) :
    digitsToNat ds + 1 ≤ 10 ^ ds.length := digitsToNat_lt h

/-- A digit string with a nonzero leading digit is at least `10 ^ (len - 1)`. -/
theorem digitsToNat_lower {c : Char} {cs : List Char}
    (h : 1 ≤ digitVal c) : 10 ^ cs.length ≤ digitsToNat (c :: cs) := by
  simp only [digitsToNat]
  have : 1 * 10 ^ cs.length ≤ digitVal c * 10 ^ cs.length :=
    Nat.mul_le_mul_right _ h
  omega

theorem digitsToNat_append_singleton (xs : List Char) (c : Char) :
    digitsToNat (xs ++ [c]) = 10 * digitsToNat xs + digitVal c := by
  induction xs with
  | nil => simp [digitsToNat]
  | cons x xs ih =>
    have hl : (xs ++ [c]).length = xs.length + 1 := by simp
    simp only [List.cons_append, digitsToNat, List.append_eq, ih, hl]
    ring

theorem digitsToNat_replicate_zero (m : Nat) (xs : List Char) :
    digitsToNat (List.replicate m '0' ++ xs) = digitsToNat xs := by
  induction m with
  | zero => simp
  | succ m ih =>
    simp only [List.replicate_succ, List.cons_append, digitsToNat]
    have : digitVal '0' = 0 := by decide
    simp [this, ih]

/-! ### Properties of `natToDigits` -/

theorem natToDigitsAux_acc (fuel : Nat) : ∀ n acc,
    natToDigitsAux fuel n acc = natToDigitsAux fuel n [] ++ acc := by
  induction fuel with
  | zero => intro n acc; simp [natToDigitsAux]
  | succ fuel ih =>
    intro n acc
    simp only [natToDigitsAux]
    split
    · simp
    · rw [ih (n / 10) (digitCh (n % 10) :: acc), ih (n / 10) [digitCh (n % 10)]]
      simp

theorem natToDigitsAux_fuel (fuel₁ : Nat) : ∀ fuel₂ n acc, n ≤ fuel₁ → n ≤ fuel₂ →
    natToDigitsAux fuel₁ n acc = natToDigitsAux fuel₂ n acc := by
  induction fuel₁ with
  | zero =>
    intro fuel₂ n acc h₁ _
    interval_cases n
    cases fuel₂ <;> simp [natToDigitsAux]
  | succ f ih =>
    intro fuel₂ n acc h₁ h₂
    cases fuel₂ with
    | zero =>
      interval_cases n
      simp [natToDigitsAux]
    | succ f₂ =>
      simp only [natToDigitsAux]
      split
      · rfl
      · have hn : 10 ≤ n := by omega
        exact ih f₂ (n / 10) _ (by omega) (by omega)

theorem natToDigits_small {n : Nat} (h : n < 10) : natToDigits n = [digitCh n] := by
  cases n with
  | zero => rfl
  | succ m => simp [natToDigits, natToDigitsAux, h]

theorem natToDigits_big {n : Nat} (h : 10 ≤ n) :
    natToDigits n = natToDigits (n / 10) ++ [digitCh (n % 10)] := by
  obtain ⟨f, rfl⟩ : ∃ f, n = f + 1 := ⟨n - 1, by omega⟩
  show natToDigitsAux (f + 1) (f + 1) [] = _
  simp only [natToDigitsAux, Nat.not_lt.mpr h, if_neg (Nat.not_lt.mpr h)]
  rw [natToDigitsAux_acc, natToDigitsAux_fuel f ((f + 1) / 10) ((f + 1) / 10) []
    (by omega) (by omega)]
  rfl

theorem char_toNat_inj {a b : Char} (h : a.toNat = b.toNat) : a = b :=
  Char.eq_of_val_eq (UInt32.ext h)

theorem digitCh_isDigit {n : Nat} (h : n < 10) : isDigitCh (digitCh n) = true := by
  interval_cases n <;> decide

theorem digitVal_digitCh {n : Nat} (h : n < 10) : digitVal (digitCh n) = n := by
  interval_cases n <;> decide

theorem digitCh_zero_iff {n : Nat} (h : n < 10) : digitCh n = '0' ↔ n = 0 := by
  interval_cases n <;> simp <;> decide

theorem eq_of_digitVal_eq {a b : Char} (ha : isDigitCh a = true)
    (hb : isDigitCh b = true) (h : digitVal a = digitVal b) : a = b := by
  simp only [isDigitCh, Bool.and_eq_true, decide_eq_true_eq] at ha hb
  simp only [digitVal] at h
  exact char_toNat_inj (by omega)

theorem natToDigits_ne_nil (n : Nat) : natToDigits n ≠ [] := by
  induction n using Nat.strong_induction_on with
  | _ n ih =>
    by_cases h : n < 10
    · rw [natToDigits_small h]; simp
    · rw [natToDigits_big (by omega)]; simp

theorem natToDigits_all_digits (n : Nat) : (natToDigits n).all isDigitCh = true := by
  induction n using Nat.strong_induction_on with
  | _ n ih =>
    by_cases h : n < 10
    · rw [natToDigits_small h]
      simp [digitCh_isDigit h]
    · rw [natToDigits_big (by omega)]
      simp only [List.all_append, Bool.and_eq_true]
      exact ⟨ih (n / 10) (by omega), by
        simp [digitCh_isDigit (Nat.mod_lt n (by omega))]⟩

theorem digitsToNat_natToDigits (n : Nat) : digitsToNat (natToDigits n) = n := by
  induction n using Nat.strong_induction_on with
  | _ n ih =>
    by_cases h : n < 10
    · rw [natToDigits_small h]
      simp [digitsToNat, digitVal_digitCh h]
    · rw [natToDigits_big (by omega), digitsToNat_append_singleton,
        ih (n / 10) (by omega), digitVal_digitCh (Nat.mod_lt n (by omega))]
      omega

/-- The decimal rendering never has a leading `'0'` digit for positive input. -/
theorem natToDigits_head_ne_zero {n : Nat} (h : 1 ≤ n) :
    (natToDigits n).headD ' ' ≠ '0' := by
  induction n using Nat.strong_induction_on with
  | _ n ih =>
    by_cases h10 : n < 10
    · rw [natToDigits_small h10]
      simp only [List.headD_cons, Ne, digitCh_zero_iff h10]
      omega
    · rw [natToDigits_big (by omega)]
      obtain ⟨c, cs, hcc⟩ : ∃ c cs, natToDigits (n / 10) = c :: cs := by
        cases hnd : natToDigits (n / 10) with
        | nil => exact absurd hnd (natToDigits_ne_nil _)
        | cons c cs => exact ⟨c, cs, rfl⟩
      have hih := ih (n / 10) (by omega) (by omega)
      rw [hcc] at hih ⊢
      simpa using hih

theorem natToDigits_length_le {n w : Nat} (hw : 1 ≤ w) (h : n < 10 ^ w) :
    (natToDigits n).length ≤ w := by
  induction n using Nat.strong_induction_on generalizing w with
  | _ n ih =>
    by_cases h10 : n < 10
    · rw [natToDigits_small h10]; simpa using hw
    · rw [natToDigits_big (by omega)]
      have hw2 : 2 ≤ w := by
        by_contra hc
        interval_cases w
        simp at h
        omega
      have : n / 10 < 10 ^ (w - 1) := by
        have : 10 ^ w = 10 ^ (w - 1) * 10 := by
          rw [← pow_succ]
          congr 1
          omega
        omega
      have := ih (n / 10) (by omega) (show 1 ≤ w - 1 by omega) this
      simp only [List.length_append, List.length_cons, List.length_nil]
      omega

theorem mul_add_digit_inj {A B v₁ v₂ P : Nat} (h1 : v₁ < P) (h2 : v₂ < P)
    (h : A * P + v₁ = B * P + v₂) : A = B ∧ v₁ = v₂ := by
  have hA : A = B := by
    rcases Nat.lt_trichotomy A B with hlt | heq | hgt
    · have hm : (A + 1) * P ≤ B * P := mul_le_mul_right' (by omega) P
      nlinarith
    · exact heq
    · have hm : (B + 1) * P ≤ A * P := mul_le_mul_right' (by omega) P
      nlinarith
  subst hA
  exact ⟨rfl, Nat.add_left_cancel h⟩

/-- Two digit strings of equal length denoting the same number are equal. -/
theorem digits_fixed_len_inj : ∀ {ds es : List Char}, ds.length = es.length →
    ds.all isDigitCh = true → es.all isDigitCh = true →
    digitsToNat ds = digitsToNat es → ds = es := by
  intro ds
  induction ds with
  | nil =>
    intro es hlen _ _ _
    cases es with
    | nil => rfl
    | cons e es => simp at hlen
  | cons d ds ih =>
    intro es hlen hd he hval
    cases es with
    | nil => simp at hlen
    | cons e es =>
      simp only [List.length_cons, Nat.add_right_cancel_iff] at hlen
      simp only [List.all_cons, Bool.and_eq_true] at hd he
      simp only [digitsToNat, hlen] at hval
      obtain ⟨hAB, hvv⟩ :=
        mul_add_digit_inj (hlen ▸ digitsToNat_lt hd.2) (digitsToNat_lt he.2) hval
      rw [eq_of_digitVal_eq hd.1 he.1 hAB, ih hlen hd.2 he.2 hvv]

theorem padZeros_all_digits (w n : Nat) : (padZeros w n).all isDigitCh = true := by
  simp only [padZeros, List.all_append, Bool.and_eq_true]
  refine ⟨?_, natToDigits_all_digits n⟩
  simp only [List.all_eq_true]
  intro x hx
  rw [List.eq_of_mem_replicate hx]
  decide

theorem padZeros_length {w n : Nat} (hw : 1 ≤ w) (h : n < 10 ^ w) :
    (padZeros w n).length = w := by
  have := natToDigits_length_le hw h
  simp only [padZeros, List.length_append, List.length_replicate]
  omega

theorem digitsToNat_padZeros (w n : Nat) : digitsToNat (padZeros w n) = n := by
  rw [padZeros, digitsToNat_replicate_zero, digitsToNat_natToDigits]

/-- Re-rendering a fixed-width digit string at its own width is the identity. -/
theorem padZeros_digits {ds : List Char} {w : Nat} (hw : 1 ≤ w)
    (hlen : ds.length = w) (hd : ds.all isDigitCh = true) :
    padZeros w (digitsToNat ds) = ds := by
  have hval : digitsToNat ds < 10 ^ w := hlen ▸ digitsToNat_lt hd
  exact digits_fixed_len_inj ((padZeros_length hw hval).trans hlen.symm)
    (padZeros_all_digits _ _) hd (digitsToNat_padZeros _ _)

theorem digitVal_pos_of_ne_zero {c : Char} (hd : isDigitCh c = true) (h : c ≠ '0') :
    1 ≤ digitVal c := by
  by_contra hc
  have h0 : digitVal c = digitVal '0' := by
    have : digitVal '0' = 0 := by decide
    omega
  exact h (eq_of_digitVal_eq hd (by decide) h0)

theorem digitsToNat_lt_of_shorter {xs : List Char} {y : Char} {ys : List Char}
    (hx : xs.all isDigitCh = true) (hlen : xs.length < (y :: ys).length)
    (hy : 1 ≤ digitVal y) : digitsToNat xs < digitsToNat (y :: ys) :=
  calc digitsToNat xs < 10 ^ xs.length := digitsToNat_lt hx
    _ ≤ 10 ^ ys.length := Nat.pow_le_pow_right (by norm_num)
        (by simpa using Nat.lt_succ_iff.mp (by simpa using hlen))
    _ ≤ digitsToNat (y :: ys) := digitsToNat_lower hy

/-- A digit string without a spurious leading zero is determined by its value. -/
theorem canonical_digits_inj {ds es : List Char} (hdne : ds ≠ []) (hene : es ≠ [])
    (hd : ds.all isDigitCh = true) (he : es.all isDigitCh = true)
    (hcd : ds.length = 1 ∨ ds.headD ' ' ≠ '0') (hce : es.length = 1 ∨ es.headD ' ' ≠ '0')
    (hval : digitsToNat ds = digitsToNat es) : ds = es := by
  have hlen : ds.length = es.length := by
    rcases Nat.lt_trichotomy ds.length es.length with hlt | heq | hgt
    · exfalso
      cases es with
      | nil => exact hene rfl
      | cons e es' =>
        have h1 : 1 ≤ ds.length := by
          cases ds with
          | nil => exact absurd rfl hdne
          | cons _ _ => simp
        have hhe : e ≠ '0' := by
          rcases hce with hl | hh
          · exfalso
            simp only [List.length_cons] at hl hlt
            omega
          · simpa using hh
        simp only [List.all_cons, Bool.and_eq_true] at he
        have := digitsToNat_lt_of_shorter hd hlt
          (digitVal_pos_of_ne_zero he.1 hhe)
        omega
    · exact heq
    · exfalso
      cases ds with
      | nil => exact hdne rfl
      | cons d ds' =>
        have h1 : 1 ≤ es.length := by
          cases es with
          | nil => exact absurd rfl hene
          | cons _ _ => simp
        have hhd : d ≠ '0' := by
          rcases hcd with hl | hh
          · exfalso
            simp only [List.length_cons] at hl hgt
            omega
          · simpa using hh
        simp only [List.all_cons, Bool.and_eq_true] at hd
        have := digitsToNat_lt_of_shorter he hgt
          (digitVal_pos_of_ne_zero hd.1 hhd)
        omega
  exact digits_fixed_len_inj hlen hd he hval

/-- Rendering the value of a canonical digit string recovers the string. -/
theorem natToDigits_digitsToNat {ds : List Char} (hne : ds ≠ [])
    (hd : ds.all isDigitCh = true)
    (hcanon : ds.length = 1 ∨ ds.headD ' ' ≠ '0') :
    natToDigits (digitsToNat ds) = ds := by
  apply canonical_digits_inj (natToDigits_ne_nil _) hne
    (natToDigits_all_digits _) hd ?_ hcanon (digitsToNat_natToDigits _)
  by_cases h10 : digitsToNat ds < 10
  · left
    rw [natToDigits_small h10]
    rfl
  · right
    exact natToDigits_head_ne_zero (by omega)

theorem padZeros_of_len_ge {w n : Nat} (h : w ≤ (natToDigits n).length) :
    padZeros w n = natToDigits n := by
  simp [padZeros, Nat.sub_eq_zero_of_le h]

/-! ### Structural lemmas for the identifier parser -/

theorem splitFirst_some {c : Char} : ∀ {s p r : List Char},
    splitFirst c s = some (p, r) → s = p ++ c :: r ∧ c ∉ p := by
  intro s
  induction s with
  | nil => intro p r h; simp [splitFirst] at h
  | cons x xs ih =>
    intro p r h
    simp only [splitFirst] at h
    by_cases hx : x = c
    · rw [if_pos hx] at h
      simp only [Option.some.injEq, Prod.mk.injEq] at h
      obtain ⟨rfl, rfl⟩ := h
      simp [hx]
    · rw [if_neg hx] at h
      cases hsf : splitFirst c xs with
      | none => rw [hsf] at h; simp at h
      | some q =>
        rw [hsf] at h
        have h' : (x :: q.1, q.2) = (p, r) := by simpa using h
        obtain ⟨hq, hcp⟩ := ih (show splitFirst c xs = some (q.1, q.2) by rw [hsf])
        injection h' with h1 h2
        subst h1
        subst h2
        constructor
        · simp [hq]
        · simp only [List.mem_cons, not_or]
          exact ⟨fun he => hx he.symm, hcp⟩

theorem splitFirst_none {c : Char} : ∀ {s : List Char},
    splitFirst c s = none → c ∉ s := by
  intro s
  induction s with
  | nil => intro _; simp
  | cons x xs ih =>
    intro h
    simp only [splitFirst] at h
    by_cases hx : x = c
    · rw [if_pos hx] at h; simp at h
    · rw [if_neg hx] at h
      cases hsf : splitFirst c xs with
      | none =>
        simp only [List.mem_cons, not_or]
        exact ⟨fun he => hx he.symm, ih hsf⟩
      | some q => rw [hsf] at h; simp at h

theorem vsplitAux_spec : ∀ (rest pre : List Char) {b : List Char}
    {vds : Option (List Char)}, vsplitAux pre rest = (b, vds) →
    pre.reverse ++ rest = b ++ vtail vds ∧
    (∀ ds, vds = some ds → ds ≠ [] ∧ ds.all isDigitCh = true) ∧
    (pre ≠ [] → b ≠ []) := by
  intro rest
  induction rest with
  | nil =>
    intro pre b vds h
    simp only [vsplitAux, Prod.mk.injEq] at h
    obtain ⟨rfl, rfl⟩ := h
    refine ⟨by simp [vtail], by simp, fun hp => by simpa using hp⟩
  | cons c cs ih =>
    intro pre b vds h
    simp only [vsplitAux] at h
    by_cases hc : (c = 'v' && !cs.isEmpty && cs.all isDigitCh) = true
    · rw [if_pos hc] at h
      simp only [Prod.mk.injEq] at h
      obtain ⟨rfl, rfl⟩ := h
      simp only [Bool.and_eq_true, decide_eq_true_eq, Bool.not_eq_eq_eq_not,
        Bool.not_true, List.isEmpty_eq_false] at hc
      refine ⟨by simp [vtail, hc.1.1], ?_, fun hp => by simpa using hp⟩
      intro ds hds
      cases hds
      exact ⟨by simpa using hc.1.2, hc.2⟩
    · rw [if_neg hc] at h
      obtain ⟨heq, hds, hbne⟩ := ih (c :: pre) h
      refine ⟨?_, hds, fun _ => hbne (by simp)⟩
      rw [← heq]
      simp

theorem vsplitTop_spec {s b : List Char} {vds : Option (List Char)}
    (hne : s ≠ []) (h : vsplitTop s = (b, vds)) :
    s = b ++ vtail vds ∧
    (∀ ds, vds = some ds → ds ≠ [] ∧ ds.all isDigitCh = true) ∧ b ≠ [] := by
  cases s with
  | nil => exact absurd rfl hne
  | cons c cs =>
    obtain ⟨heq, hds, hbne⟩ := vsplitAux_spec cs [c] h
    simp only [List.reverse_cons, List.reverse_nil, List.nil_append,
      List.singleton_append] at heq
    exact ⟨heq, hds, hbne (by simp)⟩

theorem parse_post0704_reconstruct {base : List Char} {y m n : Nat}
    (hp : parse_post0704 base = some (y, m, n)) (hc : canonModernSeq base = true) :
    padZeros 2 (y % 100) ++ padZeros 2 m ++
      '.' :: padZeros (if y < 2015 then 4 else 5) n = base := by
  rcases base with _ | ⟨a, base⟩
  · exact Option.noConfusion hp
  rcases base with _ | ⟨b, base⟩
  · exact Option.noConfusion hp
  rcases base with _ | ⟨c, base⟩
  · exact Option.noConfusion hp
  rcases base with _ | ⟨d, base⟩
  · exact Option.noConfusion hp
  rcases base with _ | ⟨dot, seq⟩
  · exact Option.noConfusion hp
  simp only [parse_post0704] at hp
  split_ifs at hp with hcond hmonth
  · simp only [Option.some.injEq, Prod.mk.injEq] at hp
    obtain ⟨rfl, rfl, rfl⟩ := hp
    simp only [Bool.and_eq_true, decide_eq_true_eq] at hcond
    obtain ⟨⟨⟨⟨⟨⟨ha, hb⟩, hcc⟩, hd⟩, hdot⟩, hlen⟩, hdigs⟩ := hcond
    subst hdot
    simp only [canonModernSeq] at hc
    have hyy : digitsToNat [a, b] < 100 := by
      have := digitsToNat_lt (show ([a, b] : List Char).all isDigitCh = true by simp [ha, hb])
      simpa using this
    have hmm : digitsToNat [c, d] < 100 := by
      have := digitsToNat_lt (show ([c, d] : List Char).all isDigitCh = true by simp [hcc, hd])
      simpa using this
    have hy100 : (2000 + digitsToNat [a, b]) % 100 = digitsToNat [a, b] := by omega
    rw [hy100]
    rw [padZeros_digits (by norm_num) (by rfl) (by simp [ha, hb]),
      padZeros_digits (by norm_num) (by rfl) (by simp [hcc, hd])]
    by_cases h15 : digitsToNat [a, b] < 15
    · rw [if_pos (by omega : 2000 + digitsToNat [a, b] < 2015)]
      rw [if_pos h15] at hc
      simp only [Bool.or_eq_true, Bool.and_eq_true, beq_iff_eq, bne_iff_ne] at hc
      rcases hc with h4 | h5
      · rw [padZeros_digits (by norm_num) (by simpa using h4) hdigs]
        simp
      · have h5 : seq.length = 5 ∧ seq.headD ' ' ≠ '0' := h5
        have hne : seq ≠ [] := by
          intro he
          rw [he] at h5
          simp at h5
        have hseq : natToDigits (digitsToNat seq) = seq :=
          natToDigits_digitsToNat hne hdigs (Or.inr h5.2)
        rw [padZeros_of_len_ge (by rw [hseq]; omega)]
        rw [hseq]
        simp
    · rw [if_neg (by omega : ¬ 2000 + digitsToNat [a, b] < 2015)]
      rw [if_neg h15] at hc
      rw [padZeros_digits (by norm_num) (by simpa using hc) hdigs]
      simp

theorem parse_pre0704_reconstruct {base : List Char} {y m n : Nat}
    {archIn : List Char} {subj : Option (List Char)}
    (hp : parse_pre0704 base = some (y, m, n, archIn, subj)) :
    categoryOf archIn subj ++
      '/' :: (padZeros 2 (y % 100) ++ padZeros 2 m ++ padZeros 3 n) = base := by
  cases hsf : splitFirst '/' base with
  | none =>
    rw [parse_pre0704.eq_def, hsf] at hp
    exact Option.noConfusion hp
  | some pair =>
    obtain ⟨cat, numeric⟩ := pair
    rw [parse_pre0704.eq_def, hsf] at hp
    obtain ⟨hbase, -⟩ := splitFirst_some hsf
    rcases numeric with _ | ⟨y1, numeric⟩
    · exact Option.noConfusion hp
    rcases numeric with _ | ⟨y2, numeric⟩
    · exact Option.noConfusion hp
    rcases numeric with _ | ⟨m1, numeric⟩
    · exact Option.noConfusion hp
    rcases numeric with _ | ⟨m2, numeric⟩
    · exact Option.noConfusion hp
    rcases numeric with _ | ⟨n1, numeric⟩
    · exact Option.noConfusion hp
    rcases numeric with _ | ⟨n2, numeric⟩
    · exact Option.noConfusion hp
    rcases numeric with _ | ⟨n3, numeric⟩
    · exact Option.noConfusion hp
    rcases numeric with _ | ⟨x, numeric⟩
    swap
    · exact Option.noConfusion hp
    simp only at hp
    by_cases hcond : cat ≠ [] ∧ cat.all isCatCh = true ∧
        [y1, y2, m1, m2, n1, n2, n3].all isDigitCh = true
    case neg => rw [if_neg hcond] at hp; exact Option.noConfusion hp
    rw [if_pos hcond] at hp
    by_cases hmonth : 1 ≤ digitsToNat [m1, m2] ∧ digitsToNat [m1, m2] ≤ 12
    case neg => rw [if_neg hmonth] at hp; exact Option.noConfusion hp
    rw [if_pos hmonth] at hp
    obtain ⟨-, -, hdigs⟩ := hcond
    simp only [List.all_cons, List.all_nil, Bool.and_eq_true, and_true] at hdigs
    obtain ⟨hy1, hy2, hm1, hm2, hn1, hn2, hn3⟩ := hdigs
    have hyy : digitsToNat [y1, y2] < 100 := by
      have := digitsToNat_lt (show ([y1, y2] : List Char).all isDigitCh = true by simp [hy1, hy2])
      simpa using this
    set yr := if 90 ≤ digitsToNat [y1, y2] then 1900 + digitsToNat [y1, y2]
      else 2000 + digitsToNat [y1, y2] with hyr
    have hy100 : yr % 100 = digitsToNat [y1, y2] := by
      rw [hyr]
      split_ifs <;> omega
    cases hdot : splitFirst '.' cat with
    | some pq =>
      obtain ⟨a0, sj⟩ := pq
      rw [hdot] at hp
      simp only [Option.some.injEq, Prod.mk.injEq] at hp
      obtain ⟨rfl, rfl, rfl, rfl, rfl⟩ := hp
      obtain ⟨hcat, -⟩ := splitFirst_some hdot
      rw [hy100, padZeros_digits (by norm_num) (by rfl) (by simp [hy1, hy2]),
        padZeros_digits (by norm_num) (by rfl) (by simp [hm1, hm2]),
        padZeros_digits (by norm_num) (by rfl) (by simp [hn1, hn2, hn3])]
      rw [hbase]
      simp only [categoryOf]
      rw [← hcat]
      simp
    | none =>
      rw [hdot] at hp
      simp only [Option.some.injEq, Prod.mk.injEq] at hp
      obtain ⟨rfl, rfl, rfl, rfl, rfl⟩ := hp
      rw [hy100, padZeros_digits (by norm_num) (by rfl) (by simp [hy1, hy2]),
        padZeros_digits (by norm_num) (by rfl) (by simp [hm1, hm2]),
        padZeros_digits (by norm_num) (by rfl) (by simp [hn1, hn2, hn3])]
      rw [hbase]
      simp [categoryOf]

theorem fromBody_reconstruct {s : List Char} {a : ArticleId}
    (h : fromBody s = some a) (hc : canonBody s = true) :
    a.pfx = none ∧ a.reconstruct_id = s := by
  simp only [fromBody] at h
  by_cases hguard : s = [] ∨ '\n' ∈ s
  · rw [if_pos hguard] at h
    exact Option.noConfusion h
  rw [if_neg hguard] at h
  push_neg at hguard
  obtain ⟨hne, -⟩ := hguard
  rcases hv : vsplitTop s with ⟨baseId, vds⟩
  rw [hv] at h
  obtain ⟨hs, hvds, hbne⟩ := vsplitTop_spec hne hv
  simp only [canonBody, hv, Bool.and_eq_true, Bool.or_eq_true,
    decide_eq_true_eq] at hc
  obtain ⟨hcv, hcm⟩ := hc
  by_cases hslash : '/' ∈ baseId
  · rw [if_pos hslash] at h
    cases hp : parse_pre0704 baseId with
    | none =>
      rw [hp] at h
      exact Option.noConfusion h
    | some t =>
      obtain ⟨y, m, n, archIn, subj⟩ := t
      rw [hp] at h
      have ha : ArticleId.mk baseId (vds.map digitsToNat) y m n none
          (some archIn) subj = a := by simpa using h
      subst ha
      refine ⟨rfl, ?_⟩
      have hpre : ArticleId.reconstruct_pre0704_base_id
          ⟨baseId, vds.map digitsToNat, y, m, n, none, some archIn, subj⟩ =
          categoryOf archIn subj ++
            '/' :: (padZeros 2 (y % 100) ++ padZeros 2 m ++ padZeros 3 n) := by
        cases subj <;> simp [ArticleId.reconstruct_pre0704_base_id, categoryOf]
      cases hvd : vds with
      | none =>
        subst hvd
        simp only [ArticleId.reconstruct_id]
        rw [hpre, parse_pre0704_reconstruct hp]
        rw [hs]
        simp [vtail]
      | some ds =>
        subst hvd
        obtain ⟨hdne, hdds⟩ := hvds ds rfl
        have hcanon : ds.length = 1 ∨ ds.headD ' ' ≠ '0' := by
          simpa [canonVersion] using hcv
        simp only [ArticleId.reconstruct_id]
        rw [hpre, parse_pre0704_reconstruct hp]
        rw [hs]
        simp [vtail, natToDigits_digitsToNat hdne hdds hcanon]
  · rw [if_neg hslash] at h
    cases hp : parse_post0704 baseId with
    | none =>
      rw [hp] at h
      exact Option.noConfusion h
    | some t =>
      obtain ⟨y, m, n⟩ := t
      rw [hp] at h
      have ha : ArticleId.mk baseId (vds.map digitsToNat) y m n none
          none none = a := by simpa using h
      subst ha
      refine ⟨rfl, ?_⟩
      have hcm' : canonModernSeq baseId = true := by
        rcases hcm with hmem | hcm'
        · exact absurd hmem hslash
        · exact hcm'
      cases hvd : vds with
      | none =>
        subst hvd
        simp only [ArticleId.reconstruct_id]
        rw [ArticleId.reconstruct_post0704_base_id.eq_def]
        simp only
        rw [parse_post0704_reconstruct hp hcm']
        rw [hs]
        simp [vtail]
      | some ds =>
        subst hvd
        obtain ⟨hdne, hdds⟩ := hvds ds rfl
        have hcanon : ds.length = 1 ∨ ds.headD ' ' ≠ '0' := by
          simpa [canonVersion] using hcv
        simp only [ArticleId.reconstruct_id]
        rw [ArticleId.reconstruct_post0704_base_id.eq_def]
        simp only
        rw [parse_post0704_reconstruct hp hcm']
        rw [hs]
        simp [vtail, natToDigits_digitsToNat hdne hdds hcanon]

theorem reconstruct_id_with_pfx (a : ArticleId) (p : List Char) (hp : a.pfx = none) :
    ArticleId.reconstruct_id { a with pfx := some p } =
      p ++ ':' :: a.reconstruct_id := by
  obtain ⟨bid, ver, y, m, n, px, ar, sj⟩ := a
  simp only at hp
  subst hp
  simp only [ArticleId.reconstruct_id]
  cases ar <;>
    simp [ArticleId.reconstruct_post0704_base_id, ArticleId.reconstruct_pre0704_base_id]

/-- C1 (amended): for every identifier string accepted by the parser that is
in canonical form — no surrounding whitespace, no whitespace after the prefix
colon, version digits without a leading zero, and a modern sequence written at
the width its era prescribes — reconstructing the parsed record yields the
original string byte for byte. -/
theorem c1_roundtrip_canonical {s : List Char} {a : ArticleId}
    (h : ArticleId.from_id s = some a) (hc : canonicalId s = true) :
    a.reconstruct_id = s := by
  simp only [canonicalId, Bool.and_eq_true, beq_iff_eq] at hc
  obtain ⟨hstrip, hc2⟩ := hc
  simp only [ArticleId.from_id, hstrip] at h
  cases hsf : splitFirst ':' s with
  | none =>
    simp only [hsf] at h hc2
    exact (fromBody_reconstruct h hc2).2
  | some pr =>
    obtain ⟨pfxStr, rest⟩ := pr
    simp only [hsf, Bool.and_eq_true, beq_iff_eq] at h hc2
    obtain ⟨hrs, hcb⟩ := hc2
    rw [hrs] at h
    cases hfb : fromBody rest with
    | none =>
      rw [hfb] at h
      exact Option.noConfusion h
    | some a0 =>
      rw [hfb] at h
      have ha : { a0 with pfx := some pfxStr } = a := by simpa using h
      obtain ⟨hpfx0, hrec0⟩ := fromBody_reconstruct hfb hcb
      subst ha
      rw [reconstruct_id_with_pfx a0 pfxStr hpfx0, hrec0]
      obtain ⟨hseq, -⟩ := splitFirst_some hsf
      exact hseq.symm

/-- C1 counterexample: `"1501.1234"` is accepted by the parser (month 01,
year 2015, sequence 1234) but reconstructs as `"1501.01234"`, because the
reconstructor pads the sequence to 5 digits for years from 2015 on.  The
claimed law `reconstruct (parse s) = s` therefore fails on an accepted
input. -/
theorem c1_counterexample :
    (ArticleId.from_id (lit "1501.1234")).isSome = true ∧
    (ArticleId.from_id (lit "1501.1234")).map ArticleId.reconstruct_id ≠
      some (lit "1501.1234") ∧
    (ArticleId.from_id (lit "1501.1234")).map ArticleId.reconstruct_id =
      some (lit "1501.01234") := by
  refine ⟨by decide, by decide, by decide⟩

/-- C1 witness: the canonical string `"arXiv:1805.12345v2"` parses to the
expected record and reconstructs to itself via `c1_roundtrip_canonical`. -/
theorem c1_roundtrip_canonical_witness :
    ArticleId.reconstruct_id
      ⟨lit "1805.12345", some 2, 2018, 5, 12345, some (lit "arXiv"), none, none⟩ =
      lit "arXiv:1805.12345v2" :=
  c1_roundtrip_canonical (by decide) (by decide)

/-! ### Helper lemmas for `from_field` -/

theorem pyWordsAux_no_space {t : List Char}
    (hw : t.all (fun c => !isPySpace c) = true) : ∀ cur : List Char,
    pyWordsAux t cur =
      if cur = [] ∧ t = [] then [] else [cur.reverse ++ t] := by
  induction t with
  | nil =>
    intro cur
    cases cur with
    | nil => simp [pyWordsAux]
    | cons c cs => simp [pyWordsAux]
  | cons c cs ih =>
    intro cur
    simp only [List.all_cons, Bool.and_eq_true, Bool.not_eq_eq_eq_not,
      Bool.not_true] at hw
    simp only [pyWordsAux, hw.1, Bool.false_eq_true, if_false]
    rw [ih hw.2 (c :: cur)]
    simp

theorem validate_term_clean {t : List Char} (q : Bool) (h : cleanTerm t = true) :
    Query.validate_term t q = .ok t := by
  simp only [cleanTerm, Bool.and_eq_true, Bool.not_eq_eq_eq_not,
    Bool.not_true] at h
  obtain ⟨hf, hw⟩ := h
  have hwords : (pyWords t).length ≤ 1 := by
    rw [pyWords, pyWordsAux_no_space hw []]
    split_ifs <;> simp
  simp only [Query.validate_term, hf, Bool.false_eq_true, if_false]
  rw [if_neg (by omega)]

theorem validate_term_forbidden {t : List Char} (q : Bool)
    (h : hasForbiddenChar t = true) :
    Query.validate_term t q = .error .forbiddenCharacter := by
  simp [Query.validate_term, h]

theorem validate_term_quote_error {t : List Char} {e : QueryError}
    (h : Query.validate_term t true = .error e) : e = .forbiddenCharacter := by
  simp only [Query.validate_term] at h
  split_ifs at h
  all_goals simp_all

theorem mapExcept_id_ok {α ε : Type} {f : α → Except ε α} : ∀ {ts : List α},
    (∀ t ∈ ts, f t = .ok t) → mapExcept f ts = .ok ts := by
  intro ts
  induction ts with
  | nil => intro _; rfl
  | cons t ts ih =>
    intro h
    simp only [mapExcept]
    rw [h t (by simp), ih fun u hu => h u (by simp [hu])]

theorem mapExcept_quote_forbidden : ∀ {ts : List (List Char)},
    (∃ t ∈ ts, hasForbiddenChar t = true) →
    mapExcept (fun t => Query.validate_term t true) ts =
      .error .forbiddenCharacter := by
  intro ts
  induction ts with
  | nil => intro h; simp at h
  | cons t ts ih =>
    intro h
    simp only [mapExcept]
    cases hft : Query.validate_term t true with
    | error e => rw [validate_term_quote_error hft]
    | ok v =>
      have hbad : ∃ u ∈ ts, hasForbiddenChar u = true := by
        rcases h with ⟨u, hu, hforb⟩
        rcases List.mem_cons.mp hu with rfl | hmem
        · rw [validate_term_forbidden true hforb] at hft
          exact absurd hft (by simp)
        · exact ⟨u, hmem, hforb⟩
      rw [ih hbad]

theorem mapExcept_error_of_mem (q : Bool) : ∀ {ts : List (List Char)},
    (∃ t ∈ ts, hasForbiddenChar t = true) →
    ∃ e, mapExcept (fun t => Query.validate_term t q) ts = .error e := by
  intro ts
  induction ts with
  | nil => intro h; simp at h
  | cons t ts ih =>
    intro h
    simp only [mapExcept]
    cases hft : Query.validate_term t q with
    | error e => exact ⟨e, rfl⟩
    | ok v =>
      have hbad : ∃ u ∈ ts, hasForbiddenChar u = true := by
        rcases h with ⟨u, hu, hforb⟩
        rcases List.mem_cons.mp hu with rfl | hmem
        · rw [validate_term_forbidden q hforb] at hft
          exact absurd hft (by simp)
        · exact ⟨u, hmem, hforb⟩
      obtain ⟨e, he⟩ := ih hbad
      rw [he]
      exact ⟨e, rfl⟩

/-- C2 (code behavior at the failing input): combining `cat:cs.AI` with the raw
string `"machine learning"` goes through `from_raw_string`, which merely wraps
the string in parentheses, yielding `(cat:cs.AI AND (machine learning))`; the
generic all-fields constructor the spec (and the repository's own test suite)
prescribes would instead produce `all:"machine learning"`.  The right-hand
combinator promotes a left-hand raw string the same parenthesizing way. -/
theorem c2_code_behavior :
    (match Query.category (.scalar (lit "cs.AI")) with
     | .ok q => q.andOp (.str (lit "machine learning"))
     | .error e => .error e) =
      .ok ⟨lit "(cat:cs.AI AND (machine learning))", false⟩ ∧
    Query.all (.scalar (lit "machine learning")) =
      .ok ⟨lit "all:\"machine learning\"", false⟩ ∧
    (Query.mk (lit "cat:cs.NE") false).randOp (lit "neural networks") =
      .ok ⟨lit "((neural networks) AND cat:cs.NE)", false⟩ ∧
    lit "(cat:cs.AI AND (machine learning))" ≠
      lit "(cat:cs.AI AND all:\"machine learning\")" :=
  ⟨rfl, rfl, rfl, by decide⟩

/-- C3: AND-combining a non-negated expression `A` with an expression `B`
renders `(A.content ANDNOT B.content)` when `B` is negated and
`(A.content AND B.content)` otherwise; the result is never negated. -/
theorem c3_and_semantics (A B : Query) (h : A.negated = false) :
    (B.negated = true →
      A.andOp (.qry B) =
        .ok ⟨'(' :: A.content ++ ' ' :: lit "ANDNOT" ++ ' ' :: B.content ++ [')'],
          false⟩) ∧
    (B.negated = false →
      A.andOp (.qry B) =
        .ok ⟨'(' :: A.content ++ ' ' :: lit "AND" ++ ' ' :: B.content ++ [')'],
          false⟩) := by
  constructor
  · intro hb
    simp [Query.andOp, Query.validate_negation, h, hb]
  · intro hb
    simp [Query.andOp, Query.validate_negation, h, hb]

/-- C3 witness: a concrete ANDNOT combination through `c3_and_semantics`. -/
theorem c3_and_semantics_witness :
    (Query.mk (lit "ti:x") false).andOp (.qry ⟨lit "cat:y", true⟩) =
      .ok ⟨'(' :: lit "ti:x" ++ ' ' :: lit "ANDNOT" ++ ' ' :: lit "cat:y" ++ [')'],
        false⟩ :=
  (c3_and_semantics ⟨lit "ti:x", false⟩ ⟨lit "cat:y", true⟩ rfl).1 rfl

/-- C5: finalization returns the content exactly when the expression is not
negated and fails with the standalone-negation error exactly when it is; it is
a pure function of the expression value, so finalizing twice gives the same
string both times. -/
theorem c5_to_string (q : Query) :
    (q.to_string = .ok q.content ↔ q.negated = false) ∧
    (q.to_string = .error .standaloneNegation ↔ q.negated = true) := by
  cases hq : q.negated
  · simp [Query.to_string, Query.validate_negation, hq]
  · simp [Query.to_string, Query.validate_negation, hq]

/-- C7: OR-combining a non-negated expression with a negated one fails with
the unsupported-operator error; with a non-negated right operand it renders
`(A.content OR B.content)`. -/
theorem c7_or_semantics (A B : Query) (h : A.negated = false) :
    (B.negated = true → A.orOp (.qry B) = .error .unsupportedOperator) ∧
    (B.negated = false →
      A.orOp (.qry B) =
        .ok ⟨'(' :: A.content ++ ' ' :: lit "OR" ++ ' ' :: B.content ++ [')'],
          false⟩) := by
  constructor
  · intro hb
    simp [Query.orOp, Query.validate_negation, h, hb]
  · intro hb
    simp [Query.orOp, Query.validate_negation, h, hb]

/-- C7 witness: a concrete failing OR and a concrete successful OR through
`c7_or_semantics`. -/
theorem c7_or_semantics_witness :
    (Query.mk (lit "cat:a") false).orOp (.qry ⟨lit "cat:b", true⟩) =
      .error .unsupportedOperator ∧
    (Query.mk (lit "cat:a") false).orOp (.qry ⟨lit "cat:c", false⟩) =
      .ok ⟨'(' :: lit "cat:a" ++ ' ' :: lit "OR" ++ ' ' :: lit "cat:c" ++ [')'],
        false⟩ :=
  ⟨(c7_or_semantics ⟨lit "cat:a", false⟩ ⟨lit "cat:b", true⟩ rfl).1 rfl,
   (c7_or_semantics ⟨lit "cat:a", false⟩ ⟨lit "cat:c", false⟩ rfl).2 rfl⟩

/-- C6: for clean terms (no quote, parenthesis or whitespace) the field
constructor with prefix `px` renders a scalar as `px:t`, a list as the terms
joined by single spaces in list order inside `px:(...)`, and a tuple as the
terms joined by `" AND "` in tuple order inside `px:(...)`. -/
theorem c6_from_field_rendering (px : List Char) (q : Bool) (t : List Char)
    (ts : List (List Char)) (ht : cleanTerm t = true)
    (hts : ∀ u ∈ ts, cleanTerm u = true) :
    Query.from_field (.scalar t) px q = .ok ⟨px ++ ':' :: t, false⟩ ∧
    Query.from_field (.list ts) px q =
      .ok ⟨px ++ ':' :: '(' :: List.intercalate (lit " ") ts ++ [')'], false⟩ ∧
    Query.from_field (.tup ts) px q =
      .ok ⟨px ++ ':' :: '(' :: List.intercalate (lit " AND ") ts ++ [')'], false⟩ := by
  have hval : mapExcept (fun u => Query.validate_term u q) ts = .ok ts :=
    mapExcept_id_ok fun u hu => validate_term_clean q (hts u hu)
  refine ⟨?_, ?_, ?_⟩
  · simp [Query.from_field, validate_term_clean q ht]
  · simp [Query.from_field, hval]
  · simp [Query.from_field, hval]

/-- C6 witness: concrete renderings obtained through `c6_from_field_rendering`
at the category field. -/
theorem c6_from_field_rendering_witness :
    Query.from_field (.scalar (lit "cs.AI")) (lit "cat") false =
      .ok ⟨lit "cat" ++ ':' :: lit "cs.AI", false⟩ ∧
    Query.from_field (.list [lit "cs.LG", lit "stat.ML"]) (lit "cat") false =
      .ok ⟨lit "cat" ++ ':' :: '(' ::
        List.intercalate (lit " ") [lit "cs.LG", lit "stat.ML"] ++ [')'], false⟩ ∧
    Query.from_field (.tup [lit "cs.LG", lit "stat.ML"]) (lit "cat") false =
      .ok ⟨lit "cat" ++ ':' :: '(' ::
        List.intercalate (lit " AND ") [lit "cs.LG", lit "stat.ML"] ++ [')'], false⟩ :=
  c6_from_field_rendering (lit "cat") false (lit "cs.AI")
    [lit "cs.LG", lit "stat.ML"] (by decide) (by decide)

/-- C9 (amended): a term containing a double quote or parenthesis always makes
field construction fail (no Expression is produced); the error is
`ForbiddenCharacter` for scalars and for every list/tuple under a quotable
field; under a non-quotable field an earlier unquotable multi-token term may
win instead. -/
theorem c9_forbidden (px : List Char) :
    (∀ t q, hasForbiddenChar t = true →
      Query.from_field (.scalar t) px q = .error .forbiddenCharacter) ∧
    (∀ ts, (∃ t ∈ ts, hasForbiddenChar t = true) →
      Query.from_field (.list ts) px true = .error .forbiddenCharacter ∧
      Query.from_field (.tup ts) px true = .error .forbiddenCharacter) ∧
    (∀ ts q, (∃ t ∈ ts, hasForbiddenChar t = true) →
      (∃ e, Query.from_field (.list ts) px q = .error e) ∧
      (∃ e, Query.from_field (.tup ts) px q = .error e)) := by
  refine ⟨?_, ?_, ?_⟩
  · intro t q h
    simp [Query.from_field, validate_term_forbidden q h]
  · intro ts h
    constructor
    · simp [Query.from_field, mapExcept_quote_forbidden h]
    · simp [Query.from_field, mapExcept_quote_forbidden h]
  · intro ts q h
    obtain ⟨e, he⟩ := mapExcept_error_of_mem q h
    constructor
    · exact ⟨e, by simp [Query.from_field, he]⟩
    · exact ⟨e, by simp [Query.from_field, he]⟩

/-- C9 counterexample: in the non-quotable category field, the list
`["a b", "("]` contains a term with a forbidden parenthesis, yet construction
fails with the unquotable-multi-term error, because the earlier term `"a b"`
is validated first.  The claim that such a construction always fails with
`ForbiddenCharacter` is therefore false. -/
theorem c9_counterexample :
    hasForbiddenChar (lit "(") = true ∧
    Query.from_field (.list [lit "a b", lit "("]) (lit "cat") false =
      .error .unquotableMultiTerm ∧
    QueryError.unquotableMultiTerm ≠ QueryError.forbiddenCharacter :=
  ⟨by decide, rfl, by decide⟩

/-- C9 witness: concrete failures obtained through `c9_forbidden`. -/
theorem c9_forbidden_witness :
    Query.from_field (.scalar (lit "(x")) (lit "ti") true =
      .error .forbiddenCharacter ∧
    Query.from_field (.list [lit "a b", lit "("]) (lit "ti") true =
      .error .forbiddenCharacter ∧
    (∃ e, Query.from_field (.list [lit "a b", lit "("]) (lit "cat") false =
      .error e) :=
  ⟨(c9_forbidden (lit "ti")).1 (lit "(x") true (by decide),
   ((c9_forbidden (lit "ti")).2.1 [lit "a b", lit "("] (by decide)).1,
   ((c9_forbidden (lit "cat")).2.2 [lit "a b", lit "("] false (by decide)).1⟩

/-- C10: the modern parser maps the two-digit year unconditionally to
`2000 + YY`, with no 1900s cutover even for `YY ≥ 90`; only the legacy parser
applies the cutover, mapping `YY ≥ 90` to `1900 + YY` and the rest to
`2000 + YY`. -/
theorem c10_year_mapping :
    (∀ (a b : Char) (rest : List Char) (y mm n : Nat),
      parse_post0704 (a :: b :: rest) = some (y, mm, n) →
      y = 2000 + digitsToNat [a, b]) ∧
    (∀ (s cat : List Char) (d1 d2 : Char) (t : List Char) (y mm n : Nat)
      (archIn : List Char) (subj : Option (List Char)),
      parse_pre0704 s = some (y, mm, n, archIn, subj) →
      splitFirst '/' s = some (cat, d1 :: d2 :: t) →
      y = if 90 ≤ digitsToNat [d1, d2] then 1900 + digitsToNat [d1, d2]
        else 2000 + digitsToNat [d1, d2]) := by
  constructor
  · intro a b rest y mm n hp
    rcases rest with _ | ⟨c, rest⟩
    · exact Option.noConfusion hp
    rcases rest with _ | ⟨d, rest⟩
    · exact Option.noConfusion hp
    rcases rest with _ | ⟨dot, seq⟩
    · exact Option.noConfusion hp
    simp only [parse_post0704] at hp
    split_ifs at hp with hcond hmonth
    simp only [Option.some.injEq, Prod.mk.injEq] at hp
    exact hp.1.symm
  · intro s cat d1 d2 t y mm n archIn subj hp hsf
    rw [parse_pre0704.eq_def, hsf] at hp
    rcases t with _ | ⟨m1, t⟩
    · exact Option.noConfusion hp
    rcases t with _ | ⟨m2, t⟩
    · exact Option.noConfusion hp
    rcases t with _ | ⟨n1, t⟩
    · exact Option.noConfusion hp
    rcases t with _ | ⟨n2, t⟩
    · exact Option.noConfusion hp
    rcases t with _ | ⟨n3, t⟩
    · exact Option.noConfusion hp
    rcases t with _ | ⟨x, t⟩
    swap
    · exact Option.noConfusion hp
    simp only at hp
    by_cases hcond : cat ≠ [] ∧ cat.all isCatCh = true ∧
        [d1, d2, m1, m2, n1, n2, n3].all isDigitCh = true
    case neg => rw [if_neg hcond] at hp; exact Option.noConfusion hp
    rw [if_pos hcond] at hp
    by_cases hmonth : 1 ≤ digitsToNat [m1, m2] ∧ digitsToNat [m1, m2] ≤ 12
    case neg => rw [if_neg hmonth] at hp; exact Option.noConfusion hp
    rw [if_pos hmonth] at hp
    cases hdot : splitFirst '.' cat with
    | some pq =>
      rw [hdot] at hp
      simp only [Option.some.injEq, Prod.mk.injEq] at hp
      exact hp.1.symm
    | none =>
      rw [hdot] at hp
      simp only [Option.some.injEq, Prod.mk.injEq] at hp
      exact hp.1.symm

/-- C10 witness: `"9901.12345"` parses to year 2099 and `"hep-th/9901001"` to
year 1999, through `c10_year_mapping`. -/
theorem c10_year_mapping_witness :
    (2099 : Nat) = 2000 + digitsToNat ['9', '9'] ∧
    (1999 : Nat) =
      (if 90 ≤ digitsToNat ['9', '9'] then 1900 + digitsToNat ['9', '9']
       else 2000 + digitsToNat ['9', '9']) :=
  ⟨c10_year_mapping.1 '9' '9' (lit "01.12345") 2099 1 12345 (by decide),
   c10_year_mapping.2 (lit "hep-th/9901001") (lit "hep-th") '9' '9' (lit "01001")
     1999 1 1 (lit "hep-th") none rfl rfl⟩

theorem le_padZeros_length (w n : Nat) : w ≤ (padZeros w n).length := by
  simp only [padZeros, List.length_append, List.length_replicate]
  omega

/-- C4 counterexample: the parser accepts `"1412.12345"` (year 2014, sequence
12345), and on that parsed modern record the reconstructed sequence field has
5 digits, not the claimed width 4: Python's `f"{n:04d}"` pads to a MINIMUM
width and never truncates, so a pre-2015 record whose sequence number exceeds
9999 renders wider than 4. -/
theorem c4_counterexample :
    ArticleId.from_id (lit "1412.12345") =
      some ⟨lit "1412.12345", none, 2014, 12, 12345, none, none, none⟩ ∧
    (2014 : Nat) < 2015 ∧
    (ArticleId.mk (lit "1412.12345") none 2014 12 12345 none none
      none).reconstruct_post0704_base_id = lit "1412.12345" ∧
    (padZeros 4 12345).length ≠ 4 :=
  ⟨by decide, by decide, by decide, by decide⟩

/-- C4 (amended): for a parsed modern-format record (`archive` absent, hence
month below 100), the base-identifier reconstruction is two-digit year,
two-digit month, a literal dot, then the sequence number zero-padded to a
MINIMUM width of 4 when `year < 2015` and 5 when `year ≥ 2015`; the rendered
width is exactly 4 resp. 5 whenever the sequence number is below the era's
capacity; and on such records `_reconstruct_id` uses exactly this base. -/
theorem c4_modern_width (a : ArticleId) (hm : a.month < 100) :
    a.reconstruct_post0704_base_id =
      padZeros 2 (a.year % 100) ++ padZeros 2 a.month ++
        '.' :: padZeros (if a.year < 2015 then 4 else 5) a.number ∧
    (padZeros 2 (a.year % 100)).length = 2 ∧
    (padZeros 2 a.month).length = 2 ∧
    (if a.year < 2015 then 4 else 5) ≤
      (padZeros (if a.year < 2015 then 4 else 5) a.number).length ∧
    (a.number < (if a.year < 2015 then 10000 else 100000) →
      (padZeros (if a.year < 2015 then 4 else 5) a.number).length =
        (if a.year < 2015 then 4 else 5)) ∧
    digitsToNat (padZeros (if a.year < 2015 then 4 else 5) a.number) = a.number ∧
    (a.archive = none → a.pfx = none → a.version = none →
      a.reconstruct_id = a.reconstruct_post0704_base_id) := by
  refine ⟨rfl, ?_, ?_, le_padZeros_length _ _, ?_, digitsToNat_padZeros _ _, ?_⟩
  · exact padZeros_length (by norm_num)
      (by norm_num [Nat.mod_lt a.year (show 0 < 100 by norm_num)])
  · exact padZeros_length (by norm_num) (by norm_num [hm])
  · intro hn
    by_cases h : a.year < 2015
    · rw [if_pos h] at hn ⊢
      exact padZeros_length (by norm_num) (by norm_num [hn])
    · rw [if_neg h] at hn ⊢
      exact padZeros_length (by norm_num) (by norm_num [hn])
  · intro har hpf hver
    obtain ⟨bid, ver, y, m, n, px, ar, sj⟩ := a
    simp only at har hpf hver
    subst har
    subst hpf
    subst hver
    simp [ArticleId.reconstruct_id]

/-- C4 witness: the concrete pre-2015 record parsed from `"1412.8770"`,
through `c4_modern_width`. -/
theorem c4_modern_width_witness :
    (ArticleId.mk (lit "1412.8770") none 2014 12 8770 none none
        none).reconstruct_post0704_base_id =
      padZeros 2 (2014 % 100) ++ padZeros 2 12 ++
        '.' :: padZeros (if (2014 : Nat) < 2015 then 4 else 5) 8770 ∧
    (padZeros 2 (2014 % 100)).length = 2 ∧
    (padZeros 2 (12 : Nat)).length = 2 ∧
    (if (2014 : Nat) < 2015 then 4 else 5) ≤
      (padZeros (if (2014 : Nat) < 2015 then 4 else 5) 8770).length ∧
    ((8770 : Nat) < (if (2014 : Nat) < 2015 then 10000 else 100000) →
      (padZeros (if (2014 : Nat) < 2015 then 4 else 5) 8770).length =
        (if (2014 : Nat) < 2015 then 4 else 5)) ∧
    digitsToNat (padZeros (if (2014 : Nat) < 2015 then 4 else 5) 8770) = 8770 ∧
    ((none : Option (List Char)) = none → (none : Option (List Char)) = none →
      (none : Option Nat) = none →
      (ArticleId.mk (lit "1412.8770") none 2014 12 8770 none none
          none).reconstruct_id =
        (ArticleId.mk (lit "1412.8770") none 2014 12 8770 none none
          none).reconstruct_post0704_base_id) :=
  c4_modern_width ⟨lit "1412.8770", none, 2014, 12, 8770, none, none, none⟩
    (by decide)

/-- C8: an omitted start bound renders as the sentinel `100001010000`, an
omitted end bound as `900001010000`, a date-only bound as its zero-padded
`YYYYMMDD` followed by `0000`; in particular the range from 2023-01-01 to
2024-01-01 renders as `submittedDate:[202301010000 TO 202401010000]`. -/
theorem c8_date_range :
    Query.submitted_date none none =
      .ok ⟨lit "submittedDate:[" ++ lit "100001010000" ++ lit " TO " ++
        lit "900001010000" ++ [']'], false⟩ ∧
    (∀ y mo dd, Query.submitted_date (some (.dateOnly y mo dd)) none =
      .ok ⟨lit "submittedDate:[" ++
        (padZeros 4 y ++ padZeros 2 mo ++ padZeros 2 dd ++ lit "0000") ++
        lit " TO " ++ lit "900001010000" ++ [']'], false⟩) ∧
    (∀ y mo dd, Query.submitted_date none (some (.dateOnly y mo dd)) =
      .ok ⟨lit "submittedDate:[" ++ lit "100001010000" ++ lit " TO " ++
        (padZeros 4 y ++ padZeros 2 mo ++ padZeros 2 dd ++ lit "0000") ++
        [']'], false⟩) ∧
    Query.submitted_date (some (.dateOnly 2023 1 1)) (some (.dateOnly 2024 1 1)) =
      .ok ⟨lit "submittedDate:[202301010000 TO 202401010000]", false⟩ :=
  ⟨rfl, fun _ _ _ => rfl, fun _ _ _ => rfl, rfl⟩
